import Mathlib

/-!
Verification of the pontos changelog engine
(src/pontos/changelog/changelog.py), shallowly embedded over `List Char`.

The Python module builds a `re.Scanner` from an ordered list of
regex/handler pairs and folds the resulting token stream in
`Changelog.update`.  The embedding below translates each scanner rule into
an explicit matcher on character lists (the regexes involved are simple:
literal words after a maximal run of the hash character, whole-line
matches, a single newline, or any non-newline remainder of a line), and
translates the `update` loop into a fold over the token list.  The current
date (`date.today().isoformat()`) is treated as an explicit parameter
`today`, and the two `re.sub` substitutions are modelled by `reSub`, a
leftmost, non-overlapping literal-pattern substitution with an optional
ASCII case-insensitive comparison (mirroring `re.IGNORECASE` on the ASCII
pattern "unreleased").
-/

namespace Changelog

/-- Token kinds: the keys passed to `token_handler` in `__build_scanner`. -/
inductive TokenKind where
  | added
  | changed
  | deprecated
  | removed
  | fixed
  | security
  | unreleased
  | unreleasedLink
  | heading
  | newline
  | any
deriving DecidableEq, Repr

/-- A scanner token: `token_handler` yields `(key, token.count('#'), token)`,
so `cnt` is the number of hash characters in the whole matched text. -/
structure Tok where
  kind : TokenKind
  cnt : Nat
  text : List Char
deriving DecidableEq, Repr

/-- The body of `token_handler`: `(key, token.count('#'), token)`. -/
def mkTok (k : TokenKind) (text : List Char) : Tok :=
  ⟨k, text.count '#', text⟩

/-- The part of the input from the current position up to (excluding) the
next newline; `.*` in the scanner regexes matches exactly this span. -/
def lineOf (s : List Char) : List Char := s.takeWhile (· != '\n')

/-- What remains after `lineOf`. -/
def lineRest (s : List Char) : List Char := s.dropWhile (· != '\n')

/-- The six keyword rules of the scanner, in priority order:
`#{1,} Added`, `#{1,} Changed`, `#{1,} Deprecated`, `#{1,} Removed`,
`#{1,} Fixed`, `#{1,} Security`. -/
def keywordRules : List (List Char × TokenKind) :=
  [(" Added".data, .added), (" Changed".data, .changed),
   (" Deprecated".data, .deprecated), (" Removed".data, .removed),
   (" Fixed".data, .fixed), (" Security".data, .security)]

/-- One keyword rule `#{1,}<w>`: a maximal nonempty run of hash characters
followed by the literal word `w`.  (The greedy `#{1,}` cannot usefully
backtrack: shortening the run would put a hash character where the space
of `w` is required.) -/
def tryWord (s : List Char) (w : List Char) (k : TokenKind) :
    Option (Tok × List Char) :=
  let hs := s.takeWhile (· == '#')
  let rest := s.dropWhile (· == '#')
  if !hs.isEmpty && w.isPrefixOf rest then
    some (mkTok k (hs ++ w), rest.drop w.length)
  else none

/-- Try an ordered list of keyword rules, first match wins (the semantics
of the ordered alternation used by `re.Scanner`). -/
def findRule (s : List Char) :
    List (List Char × TokenKind) → Option (Tok × List Char)
  | [] => none
  | r :: rs =>
    match tryWord s r.1 r.2 with
    | some res => some res
    | none => findRule s rs

/-- Rules 1-6 of the scanner. -/
def tryWords (s : List Char) : Option (Tok × List Char) :=
  findRule s keywordRules

/-- Contiguous-substring test (Python `pat in s` / regex literal search). -/
def infixOf (pat : List Char) : List Char → Bool
  | [] => pat.isEmpty
  | c :: cs => pat.isPrefixOf (c :: cs) || infixOf pat cs

def unrelLower : List Char := "unreleased".data

def unrelUpper : List Char := "Unreleased".data

/-- Occurrence test of the scanner regex fragment `[Uu]nreleased`: only the
first letter is case-varied, the tail must be lowercase. -/
def hasUnrelWord (l : List Char) : Bool :=
  infixOf unrelLower l || infixOf unrelUpper l

/-- Rule 7, `#{1,}.*(?=[Uu]nreleased).*`: a line starting with a hash
character and containing `[Uu]nreleased`; the match extends to the end of
the line (the final greedy `.*`).  The occurrence cannot start at the
leading hash character, so testing the whole line is equivalent. -/
def tryUnreleased (s : List Char) : Option (Tok × List Char) :=
  match s with
  | '#' :: _ =>
    if hasUnrelWord (lineOf s) then
      some (mkTok .unreleased (lineOf s), lineRest s)
    else none
  | _ => none

def linkLower : List Char := "[unreleased]".data

def linkUpper : List Char := "[Unreleased]".data

/-- Rule 8, `\[[Uu]nreleased\].*`: the literal bracketed word (first letter
case-varied) at the current position, then the rest of the line. -/
def tryLink (s : List Char) : Option (Tok × List Char) :=
  if linkUpper.isPrefixOf s || linkLower.isPrefixOf s then
    some (mkTok .unreleasedLink (lineOf s), lineRest s)
  else none

/-- Rule 9, `#{1,} .*`: a nonempty run of hash characters followed by a
space, then the rest of the line. -/
def tryHeading (s : List Char) : Option (Tok × List Char) :=
  match s with
  | '#' :: _ =>
    match s.dropWhile (· == '#') with
    | ' ' :: _ => some (mkTok .heading (lineOf s), lineRest s)
    | _ => none
  | _ => none

/-- Rule 10, `\n`: a single newline character. -/
def tryNewline (s : List Char) : Option (Tok × List Char) :=
  match s with
  | '\n' :: rest => some (mkTok .newline ['\n'], rest)
  | _ => none

/-- Rule 11, `..*`: any non-newline character, then the rest of the line. -/
def tryAny (s : List Char) : Option (Tok × List Char) :=
  match s with
  | [] => none
  | c :: _ => if c == '\n' then none else some (mkTok .any (lineOf s), lineRest s)

/-- One step of `re.Scanner.scan`: the ordered alternation of the eleven
rules; `none` means no rule matches at the current position (the scanner
then stops and reports the rest as the unmatched remainder). -/
def scanStep (s : List Char) : Option (Tok × List Char) :=
  match tryWords s with
  | some r => some r
  | none =>
  match tryUnreleased s with
  | some r => some r
  | none =>
  match tryLink s with
  | some r => some r
  | none =>
  match tryHeading s with
  | some r => some r
  | none =>
  match tryNewline s with
  | some r => some r
  | none => tryAny s

/-- The scan loop, with fuel for structural recursion (`scan` supplies
`s.length`, which lemma `scanAux_spec` shows is always sufficient since
every matched token is nonempty). -/
def scanAux : Nat → List Char → List Tok × List Char
  | 0, s => ([], s)
  | fuel + 1, s =>
    match scanStep s with
    | none => ([], s)
    | some (t, rest) =>
      let p := scanAux fuel rest
      (t :: p.1, p.2)

/-- `re.Scanner.scan`: the token list and the unmatched remainder. -/
def scan (s : List Char) : List Tok × List Char := scanAux s.length s

/-- `Changelog._tokenize`: the token list (the remainder would only be
echoed as a warning; `scan_remainder_nil` below shows it is empty). -/
def tokenize (s : List Char) : List Tok := (scan s).1

/-- ASCII case-insensitive character comparison (`re.IGNORECASE` on the
all-ASCII pattern "unreleased"). -/
def charEqCI (a b : Char) : Bool := a.toLower == b.toLower

/-- Case-insensitive prefix test. -/
def isPrefixCI : List Char → List Char → Bool
  | [], _ => true
  | _ :: _, [] => false
  | a :: as, b :: bs => charEqCI a b && isPrefixCI as bs

/-- Prefix test used by `reSub`: case-insensitive when `ci` is set. -/
def subMatch (ci : Bool) (pat s : List Char) : Bool :=
  if ci then isPrefixCI pat s else pat.isPrefixOf s

/-- `re.sub` with a literal pattern: scan left to right, replace each
leftmost non-overlapping occurrence, continue after the matched span (the
replacement text is not rescanned).  Fuel-driven for structural recursion;
`reSub` supplies `s.length`, enough because each step consumes one
character or one whole (nonempty) occurrence of `pat`. -/
def reSubAux (ci : Bool) (pat repl : List Char) : Nat → List Char → List Char
  | 0, s => s
  | fuel + 1, s =>
    match s with
    | [] => []
    | c :: cs =>
      if !pat.isEmpty && subMatch ci pat (c :: cs) then
        repl ++ reSubAux ci pat repl fuel ((c :: cs).drop pat.length)
      else c :: reSubAux ci pat repl fuel cs

/-- `self.__unreleased_matcher.sub` / `self.__master_matcher.sub`. -/
def reSub (ci : Bool) (pat repl s : List Char) : List Char :=
  reSubAux ci pat repl s.length s

def masterPat : List Char := "master".data

/-- Python truthiness of an optional string argument (`None` and the empty
string are falsy). -/
def truthy : Option (List Char) → Bool
  | none => false
  | some s => !s.isEmpty

/-- The start condition on an `unreleased` token:
`(containing_version and containing_version in tc) or not containing_version`. -/
def startCond (cv : Option (List Char)) (t : Tok) : Bool :=
  match cv with
  | none => true
  | some c => if c.isEmpty then true else infixOf c t.text

/-- `" - {}".format(date.today().isoformat())` with the date a parameter. -/
def dateSuffix (today : List Char) : List Char := ' ' :: '-' :: ' ' :: today

/-- The text `tc` that one loop iteration of `Changelog.update` appends for
token `t`: an `unreleased` token passing the start condition has every
case-insensitive occurrence of "unreleased" replaced by the new version
and the date suffix appended; an `unreleased_link` token has the same
substitution applied and then every occurrence of "master" replaced by the
git tag prefix followed by the new version; both only when `new_version`
is truthy.  `gp` is the constructor argument `git_tag_prefix`. -/
def rewriteTok (gp : List Char) (nv : Option (List Char)) (today : List Char)
    (cv : Option (List Char)) (t : Tok) : List Char :=
  let tc := t.text
  let tc :=
    if t.kind == .unreleased && startCond cv t && truthy nv then
      reSub true unrelLower (nv.getD []) tc ++ dateSuffix today
    else tc
  if t.kind == .unreleasedLink && truthy nv then
    reSub false masterPat (gp ++ nv.getD []) (reSub true unrelLower (nv.getD []) tc)
  else tc

/-- The loop state of `Changelog.update`: `hc`, `may_changelog_relevant`,
and the accumulators `updated_markdown` and `changelog`. -/
structure UpdState where
  hc : Nat
  mayRel : Bool
  updated : List Char
  changelog : List Char
deriving DecidableEq, Repr

/-- One iteration of the `for tt, heading_count, tc in tokens` loop:
an `unreleased` token passing the start condition sets `hc`; otherwise a
token with positive hash count at most `hc` (once `hc` is positive) clears
`may_changelog_relevant`; the (possibly rewritten) text is appended to
`updated_markdown`, and also to `changelog` when still relevant with the
new `hc` positive. -/
def updStep (gp : List Char) (nv : Option (List Char)) (today : List Char)
    (cv : Option (List Char)) (st : UpdState) (t : Tok) : UpdState :=
  let hc := if t.kind == .unreleased && startCond cv t then t.cnt else st.hc
  let mayRel :=
    if t.kind != .unreleased && decide (0 < t.cnt) && decide (0 < st.hc)
        && decide (t.cnt ≤ st.hc) then
      false
    else st.mayRel
  let tc := rewriteTok gp nv today cv t
  { hc := hc
    mayRel := mayRel
    updated := st.updated ++ tc
    changelog := if mayRel && decide (0 < hc) then st.changelog ++ tc
                 else st.changelog }

/-- `hc = 0`, `may_changelog_relevant = True`, empty accumulators. -/
def initState : UpdState := ⟨0, true, [], []⟩

/-- The loop of `Changelog.update` folded over a token list. -/
def foldState (gp : List Char) (nv : Option (List Char)) (today : List Char)
    (cv : Option (List Char)) (toks : List Tok) : UpdState :=
  toks.foldl (updStep gp nv today cv) initState

/-- `Changelog.update`: returns the verbatim input, then
`updated_markdown if changelog else ""`, then `changelog`. -/
def update (md gp : List Char) (nv cv : Option (List Char)) (today : List Char) :
    List Char × List Char × List Char :=
  let st := foldState gp nv today cv (tokenize md)
  (md, if st.changelog.isEmpty then [] else st.updated, st.changelog)

/-- `Changelog.changelog`: `result if result else None`. -/
def changelog (md gp : List Char) (nv cv : Option (List Char)) (today : List Char) :
    Option (List Char) :=
  let r := (update md gp nv cv today).2.2
  if r.isEmpty then none else some r

/-- The exception class `ChangelogError` (no fields beyond `Exception`). -/
inductive ChangelogError where
  | mk : ChangelogError
deriving DecidableEq, Repr

/-- `Changelog.changelog` viewed in the error monad: the method body
contains no `raise`, so its faithful embedding is `Except.ok` of the pure
result. -/
def changelogE (md gp : List Char) (nv cv : Option (List Char)) (today : List Char) :
    Except ChangelogError (Option (List Char)) :=
  Except.ok (changelog md gp nv cv today)

/-- The count of leading hash characters of a text: the heading-depth
notion used by the specification (for comparison with the recorded
`Tok.cnt`, which counts all hash characters of the matched text). -/
def leadingHashes (l : List Char) : Nat := (l.takeWhile (· == '#')).length

/-- The invariant every emitted token satisfies: the recorded count is the
number of hash characters of the matched text; tokens of the
heading-shaped kinds carry a positive count; newline tokens carry zero. -/
def TokOK (t : Tok) : Prop :=
  t.cnt = t.text.count '#' ∧
  (t.kind = .added ∨ t.kind = .changed ∨ t.kind = .deprecated ∨
   t.kind = .removed ∨ t.kind = .fixed ∨ t.kind = .security ∨
   t.kind = .unreleased ∨ t.kind = .heading → 0 < t.cnt) ∧
  (t.kind = .newline → t.cnt = 0)

theorem lineOf_append_lineRest (s : List Char) : lineOf s ++ lineRest s = s := by
  unfold lineOf lineRest
  exact List.takeWhile_append_dropWhile _ _

theorem lineOf_cons {c : Char} {cs : List Char} (h : (c != '\n') = true) :
    lineOf (c :: cs) = c :: lineOf cs := by
  simp [lineOf, List.takeWhile_cons, h]

theorem tryWord_spec {s w : List Char} {k : TokenKind} {t : Tok} {rest : List Char}
    (h : tryWord s w k = some (t, rest)) :
    t.text ++ rest = s ∧ t.text ≠ [] ∧ t.cnt = t.text.count '#' ∧
      0 < t.cnt ∧ t.kind = k := by
  unfold tryWord at h
  by_cases hc :
      (!(s.takeWhile (· == '#')).isEmpty
        && w.isPrefixOf (s.dropWhile (· == '#'))) = true
  · simp only [hc, if_true] at h
    obtain ⟨rfl, rfl⟩ : mkTok k (s.takeWhile (· == '#') ++ w) = t ∧
        (s.dropWhile (· == '#')).drop w.length = rest := by
      simpa using h
    simp only [Bool.and_eq_true] at hc
    obtain ⟨hne, hpre⟩ := hc
    obtain ⟨u, hu⟩ := List.isPrefixOf_iff_prefix.mp hpre
    have htw : s.takeWhile (· == '#') ++ w ++ (s.dropWhile (· == '#')).drop w.length = s := by
      rw [← hu, List.drop_left, List.append_assoc, hu,
        List.takeWhile_append_dropWhile]
    have hhead : ∃ c cs, s.takeWhile (· == '#') = c :: cs ∧ c = '#' := by
      cases htk : s.takeWhile (· == '#') with
      | nil => simp [htk] at hne
      | cons c cs =>
        refine ⟨c, cs, rfl, ?_⟩
        have := List.mem_takeWhile_imp (l := s) (p := (· == '#')) (htk ▸ List.mem_cons_self c cs)
        simpa using this
    obtain ⟨c, cs, htk, rfl⟩ := hhead
    refine ⟨htw, ?_, rfl, ?_, rfl⟩
    · simp [mkTok, htk]
    · simp [mkTok, htk, List.count_cons]
  · simp only [Bool.not_eq_true] at hc
    simp [hc] at h

theorem findRule_spec :
    ∀ (rules : List (List Char × TokenKind)) {s : List Char} {t : Tok}
      {rest : List Char},
      findRule s rules = some (t, rest) →
      (∀ r ∈ rules, r.2 ≠ TokenKind.newline) →
      t.text ++ rest = s ∧ t.text ≠ [] ∧ TokOK t := by
  intro rules
  induction rules with
  | nil => intro s t rest h _; simp [findRule] at h
  | cons r rs ih =>
    intro s t rest h hk
    rw [findRule] at h
    cases hw : tryWord s r.1 r.2 with
    | some res =>
      rw [hw] at h
      have hres : res = (t, rest) := by injection h
      subst hres
      obtain ⟨happ, hne, hcnt, hpos, hkind⟩ := tryWord_spec hw
      refine ⟨happ, hne, hcnt, fun _ => hpos, fun hnl => ?_⟩
      exact absurd (hkind.symm.trans hnl) (hk r (List.mem_cons_self r rs))
    | none =>
      rw [hw] at h
      exact ih h (fun x hx => hk x (List.mem_cons_of_mem r hx))

theorem keywordRules_no_newline :
    ∀ r ∈ keywordRules, r.2 ≠ TokenKind.newline := by decide

theorem mkTok_cnt (k : TokenKind) (l : List Char) :
    (mkTok k l).cnt = (mkTok k l).text.count '#' := rfl

theorem tokOK_hashline {k : TokenKind} {cs : List Char}
    (hk : k ≠ TokenKind.newline) :
    TokOK (mkTok k ('#' :: cs)) := by
  refine ⟨rfl, fun _ => ?_, fun hn => absurd hn hk⟩
  simp [mkTok, List.count_cons]

theorem tokOK_line {k : TokenKind}
    (hk : k = TokenKind.unreleasedLink ∨ k = TokenKind.any) (l : List Char) :
    TokOK (mkTok k l) := by
  refine ⟨rfl, fun h => ?_, fun hn => ?_⟩
  · rcases hk with rfl | rfl <;> simp [mkTok] at h
  · rcases hk with rfl | rfl <;> simp [mkTok] at hn

theorem tryUnreleased_spec {s : List Char} {t : Tok} {rest : List Char}
    (h : tryUnreleased s = some (t, rest)) :
    t.text ++ rest = s ∧ t.text ≠ [] ∧ TokOK t := by
  unfold tryUnreleased at h
  split at h
  case h_2 => exact absurd h (by simp)
  case h_1 cs =>
    split at h
    case isFalse => exact absurd h (by simp)
    case isTrue hcond =>
      obtain ⟨rfl, rfl⟩ : mkTok TokenKind.unreleased (lineOf ('#' :: cs)) = t ∧
          lineRest ('#' :: cs) = rest := by simpa using h
      have hline : lineOf ('#' :: cs) = '#' :: lineOf cs := lineOf_cons (by decide)
      refine ⟨lineOf_append_lineRest _, ?_, ?_⟩
      · simp [mkTok, hline]
      · rw [hline]; exact tokOK_hashline (by decide)

theorem tryLink_spec {s : List Char} {t : Tok} {rest : List Char}
    (h : tryLink s = some (t, rest)) :
    t.text ++ rest = s ∧ t.text ≠ [] ∧ TokOK t := by
  unfold tryLink at h
  split at h
  case isFalse => exact absurd h (by simp)
  case isTrue hcond =>
    obtain ⟨rfl, rfl⟩ : mkTok TokenKind.unreleasedLink (lineOf s) = t ∧
        lineRest s = rest := by simpa using h
    have hbr : ∃ cs, s = '[' :: cs := by
      simp only [Bool.or_eq_true] at hcond
      rcases hcond with hp | hp <;>
        obtain ⟨u, hu⟩ := List.isPrefixOf_iff_prefix.mp hp <;>
        exact ⟨_, by rw [← hu]; rfl⟩
    obtain ⟨cs, rfl⟩ := hbr
    have hline : lineOf ('[' :: cs) = '[' :: lineOf cs := lineOf_cons (by decide)
    refine ⟨lineOf_append_lineRest _, ?_, ?_⟩
    · simp [mkTok, hline]
    · exact tokOK_line (Or.inl rfl) _

theorem tryHeading_spec {s : List Char} {t : Tok} {rest : List Char}
    (h : tryHeading s = some (t, rest)) :
    t.text ++ rest = s ∧ t.text ≠ [] ∧ TokOK t := by
  unfold tryHeading at h
  split at h
  case h_2 => exact absurd h (by simp)
  case h_1 cs =>
    split at h
    case h_2 => exact absurd h (by simp)
    case h_1 =>
      obtain ⟨rfl, rfl⟩ : mkTok TokenKind.heading (lineOf ('#' :: cs)) = t ∧
          lineRest ('#' :: cs) = rest := by simpa using h
      have hline : lineOf ('#' :: cs) = '#' :: lineOf cs := lineOf_cons (by decide)
      refine ⟨lineOf_append_lineRest _, ?_, ?_⟩
      · simp [mkTok, hline]
      · rw [hline]; exact tokOK_hashline (by decide)

theorem tryNewline_spec {s : List Char} {t : Tok} {rest : List Char}
    (h : tryNewline s = some (t, rest)) :
    t.text ++ rest = s ∧ t.text ≠ [] ∧ TokOK t := by
  unfold tryNewline at h
  split at h
  case h_2 => exact absurd h (by simp)
  case h_1 cs =>
    obtain ⟨rfl, rfl⟩ : mkTok TokenKind.newline ['\n'] = t ∧ cs = rest := by
      simpa using h
    exact ⟨rfl, by simp [mkTok], rfl, by simp [mkTok], fun _ => by simp [mkTok]⟩

theorem tryAny_spec {s : List Char} {t : Tok} {rest : List Char}
    (h : tryAny s = some (t, rest)) :
    t.text ++ rest = s ∧ t.text ≠ [] ∧ TokOK t := by
  unfold tryAny at h
  split at h
  case h_1 => exact absurd h (by simp)
  case h_2 c cs =>
    split at h
    case isTrue => exact absurd h (by simp)
    case isFalse hc =>
      obtain ⟨rfl, rfl⟩ : mkTok TokenKind.any (lineOf (c :: cs)) = t ∧
          lineRest (c :: cs) = rest := by simpa using h
      have hcne : (c != '\n') = true := by
        simpa using hc
      have hline : lineOf (c :: cs) = c :: lineOf cs := lineOf_cons hcne
      refine ⟨lineOf_append_lineRest _, ?_, ?_⟩
      · simp [mkTok, hline]
      · exact tokOK_line (Or.inr rfl) _

theorem scanStep_spec {s : List Char} (hs : s ≠ []) :
    ∃ t rest, scanStep s = some (t, rest) ∧ t.text ++ rest = s ∧
      t.text ≠ [] ∧ TokOK t := by
  unfold scanStep
  cases hw : tryWords s with
  | some r =>
    obtain ⟨happ, hne, hok⟩ := findRule_spec keywordRules hw keywordRules_no_newline
    exact ⟨r.1, r.2, rfl, happ, hne, hok⟩
  | none =>
  cases hu : tryUnreleased s with
  | some r =>
    obtain ⟨happ, hne, hok⟩ := tryUnreleased_spec hu
    exact ⟨r.1, r.2, rfl, happ, hne, hok⟩
  | none =>
  cases hl : tryLink s with
  | some r =>
    obtain ⟨happ, hne, hok⟩ := tryLink_spec hl
    exact ⟨r.1, r.2, rfl, happ, hne, hok⟩
  | none =>
  cases hh : tryHeading s with
  | some r =>
    obtain ⟨happ, hne, hok⟩ := tryHeading_spec hh
    exact ⟨r.1, r.2, rfl, happ, hne, hok⟩
  | none =>
  cases hn : tryNewline s with
  | some r =>
    obtain ⟨happ, hne, hok⟩ := tryNewline_spec hn
    exact ⟨r.1, r.2, rfl, happ, hne, hok⟩
  | none =>
    obtain ⟨c, cs, rfl⟩ := List.exists_cons_of_ne_nil hs
    by_cases hc : c = '\n'
    · subst hc
      exact absurd hn (by simp [tryNewline])
    · have ha : tryAny (c :: cs) =
          some (mkTok TokenKind.any (lineOf (c :: cs)), lineRest (c :: cs)) := by
        simp [tryAny, hc]
      obtain ⟨happ, hne, hok⟩ := tryAny_spec ha
      exact ⟨_, _, ha, happ, hne, hok⟩

theorem scanAux_spec :
    ∀ (fuel : Nat) (s : List Char), s.length ≤ fuel →
      ((scanAux fuel s).1.map Tok.text).flatten = s ∧
      (scanAux fuel s).2 = [] ∧
      ∀ t ∈ (scanAux fuel s).1, TokOK t := by
  intro fuel
  induction fuel with
  | zero =>
    intro s hs
    have : s = [] := List.eq_nil_of_length_eq_zero (Nat.le_zero.mp hs)
    subst this
    simp [scanAux]
  | succ n ih =>
    intro s hs
    rcases eq_or_ne s [] with rfl | hne
    · have hstep : scanStep [] = none := by decide
      simp [scanAux, hstep]
    · obtain ⟨t, rest, hstep, happ, htne, hok⟩ := scanStep_spec hne
      have hlen : rest.length ≤ n := by
        have := congrArg List.length happ
        simp only [List.length_append] at this
        have htpos : 0 < t.text.length := List.length_pos.mpr htne
        omega
      obtain ⟨hjoin, hrem, hall⟩ := ih rest hlen
      simp only [scanAux, hstep]
      refine ⟨?_, hrem, ?_⟩
      · simpa [hjoin] using happ
      · intro u hu
        rcases List.mem_cons.mp hu with rfl | hu
        · exact hok
        · exact hall u hu

theorem tokenize_flatten (md : List Char) :
    ((tokenize md).map Tok.text).flatten = md :=
  (scanAux_spec md.length md le_rfl).1

theorem scan_remainder_nil (md : List Char) : (scan md).2 = [] :=
  (scanAux_spec md.length md le_rfl).2.1

theorem tokenize_tokOK {md : List Char} {t : Tok} (h : t ∈ tokenize md) :
    TokOK t :=
  (scanAux_spec md.length md le_rfl).2.2 t h

theorem updStep_updated (gp : List Char) (nv : Option (List Char))
    (today : List Char) (cv : Option (List Char)) (st : UpdState) (t : Tok) :
    (updStep gp nv today cv st t).updated
      = st.updated ++ rewriteTok gp nv today cv t := rfl

/-- The `updated_markdown` accumulator is the concatenation of the
per-token rewrites, independently of the heading bookkeeping. -/
theorem foldl_updated (gp : List Char) (nv : Option (List Char))
    (today : List Char) (cv : Option (List Char)) :
    ∀ (toks : List Tok) (st : UpdState),
      (toks.foldl (updStep gp nv today cv) st).updated
        = st.updated ++ (toks.map (rewriteTok gp nv today cv)).flatten := by
  intro toks
  induction toks with
  | nil => intro st; simp
  | cons t ts ih =>
    intro st
    simp only [List.foldl_cons, List.map_cons, List.flatten_cons]
    rw [ih, updStep_updated, List.append_assoc]

/-- Once `may_changelog_relevant` is cleared it stays cleared, and the
`changelog` accumulator is frozen. -/
theorem foldl_mayRel_false (gp : List Char) (nv : Option (List Char))
    (today : List Char) (cv : Option (List Char)) :
    ∀ (toks : List Tok) (st : UpdState), st.mayRel = false →
      (toks.foldl (updStep gp nv today cv) st).mayRel = false ∧
      (toks.foldl (updStep gp nv today cv) st).changelog = st.changelog := by
  intro toks
  induction toks with
  | nil => intro st h; exact ⟨h, rfl⟩
  | cons t ts ih =>
    intro st h
    have hstep : (updStep gp nv today cv st t).mayRel = false ∧
        (updStep gp nv today cv st t).changelog = st.changelog := by
      unfold updStep
      constructor
      · simp only [h]
        split <;> rfl
      · simp only [h]
        split
        · simp
        · simp
    simp only [List.foldl_cons]
    obtain ⟨h1, h2⟩ := ih (updStep gp nv today cv st t) hstep.1
    exact ⟨h1, h2.trans hstep.2⟩

/-- One step with `hc = 0` and a failing (or absent) start condition:
`hc` stays `0` and `changelog` is untouched. -/
theorem updStep_hc_zero {gp : List Char} {nv : Option (List Char)}
    {today : List Char} {cv : Option (List Char)} {st : UpdState} {t : Tok}
    (hst : st.hc = 0)
    (hcond : t.kind = TokenKind.unreleased → startCond cv t = false) :
    (updStep gp nv today cv st t).hc = 0 ∧
    (updStep gp nv today cv st t).changelog = st.changelog := by
  have hb : (t.kind == TokenKind.unreleased && startCond cv t) = false := by
    by_cases hk : t.kind = TokenKind.unreleased
    · simp [hk, hcond hk]
    · simp [hk]
  unfold updStep
  simp [hb, hst]

/-- While no `unreleased` token passes the start condition, `hc` stays `0`
and nothing is collected into `changelog`. -/
theorem foldl_hc_zero (gp : List Char) (nv : Option (List Char))
    (today : List Char) (cv : Option (List Char)) :
    ∀ (toks : List Tok) (st : UpdState), st.hc = 0 →
      (∀ t ∈ toks, t.kind = TokenKind.unreleased → startCond cv t = false) →
      (toks.foldl (updStep gp nv today cv) st).hc = 0 ∧
      (toks.foldl (updStep gp nv today cv) st).changelog = st.changelog := by
  intro toks
  induction toks with
  | nil => intro st h _; exact ⟨h, rfl⟩
  | cons t ts ih =>
    intro st h hall
    obtain ⟨hhc, hcl⟩ :=
      @updStep_hc_zero gp nv today cv st t h
        (hall t (List.mem_cons_self t ts))
    simp only [List.foldl_cons]
    obtain ⟨h1, h2⟩ := ih (updStep gp nv today cv st t) hhc
      (fun u hu => hall u (List.mem_cons_of_mem t hu))
    exact ⟨h1, h2.trans hcl⟩

theorem update_fst (md gp : List Char) (nv cv : Option (List Char))
    (today : List Char) : (update md gp nv cv today).1 = md := rfl

theorem update_snd (md gp : List Char) (nv cv : Option (List Char))
    (today : List Char) :
    (update md gp nv cv today).2.1
      = if (foldState gp nv today cv (tokenize md)).changelog.isEmpty then []
        else (foldState gp nv today cv (tokenize md)).updated := rfl

theorem update_thd (md gp : List Char) (nv cv : Option (List Char))
    (today : List Char) :
    (update md gp nv cv today).2.2
      = (foldState gp nv today cv (tokenize md)).changelog := rfl

theorem foldState_updated (gp : List Char) (nv : Option (List Char))
    (today : List Char) (cv : Option (List Char)) (toks : List Tok) :
    (foldState gp nv today cv toks).updated
      = (toks.map (rewriteTok gp nv today cv)).flatten := by
  unfold foldState
  rw [foldl_updated]
  rfl

/-- With `new_version` falsy, no token text is rewritten. -/
theorem rewriteTok_none (gp today : List Char) (cv : Option (List Char))
    (t : Tok) : rewriteTok gp none today cv t = t.text := by
  unfold rewriteTok
  simp [truthy]

/-- A non-`unreleased` token with a positive hash count bounded by the
active `hc` ends collection: it clears `may_changelog_relevant`, leaves
`hc` and `changelog` alone, and appends only to `updated_markdown`. -/
theorem updStep_terminator {gp : List Char} {nv : Option (List Char)}
    {today : List Char} {cv : Option (List Char)} {st : UpdState} {t : Tok}
    (hkind : t.kind ≠ TokenKind.unreleased) (hpos : 0 < t.cnt)
    (hhc : 0 < st.hc) (hle : t.cnt ≤ st.hc) :
    updStep gp nv today cv st t
      = ⟨st.hc, false, st.updated ++ rewriteTok gp nv today cv t,
         st.changelog⟩ := by
  unfold updStep
  simp [hkind, hpos, hhc, hle]

theorem scanAux_nil : ∀ fuel : Nat, scanAux fuel [] = ([], []) := by
  intro fuel
  cases fuel with
  | zero => rfl
  | succ n =>
    have hstep : scanStep [] = none := by decide
    simp [scanAux, hstep]

theorem takeWhile_all {p : Char → Bool} :
    ∀ {l : List Char}, (∀ c ∈ l, p c = true) → l.takeWhile p = l := by
  intro l
  induction l with
  | nil => intro _; rfl
  | cons c cs ih =>
    intro h
    rw [List.takeWhile_cons, if_pos (h c (List.mem_cons_self c cs))]
    rw [ih (fun x hx => h x (List.mem_cons_of_mem c hx))]

theorem dropWhile_all {p : Char → Bool} :
    ∀ {l : List Char}, (∀ c ∈ l, p c = true) → l.dropWhile p = [] := by
  intro l
  induction l with
  | nil => intro _; rfl
  | cons c cs ih =>
    intro h
    rw [List.dropWhile_cons_of_pos (h c (List.mem_cons_self c cs))]
    exact ih (fun x hx => h x (List.mem_cons_of_mem c hx))

/-- Claim C2 (confirmed): for every input document, concatenating the raw
text of all tokens produced by the tokenizer, in scan order, reproduces
the input document exactly, and the unmatched remainder reported by the
scanner is always empty. -/
theorem c2_lossless_tokenization (md : List Char) :
    ((tokenize md).map Tok.text).flatten = md ∧ (scan md).2 = [] :=
  ⟨tokenize_flatten md, scan_remainder_nil md⟩

/-- Claim C4 (confirmed): `update` always returns the verbatim original
document first; the second component is the empty no-op sentinel exactly
when the extracted body is empty, and otherwise it is the full rewritten
document (the concatenation of all per-token rewrites). -/
theorem c4_return_policy (md gp today : List Char) (nv cv : Option (List Char)) :
    update md gp nv cv today
      = (md,
         if (foldState gp nv today cv (tokenize md)).changelog.isEmpty then []
         else ((tokenize md).map (rewriteTok gp nv today cv)).flatten,
         (foldState gp nv today cv (tokenize md)).changelog) := by
  unfold update
  dsimp only
  rw [foldState_updated]

/-- Claim C9 (confirmed): no operation of the engine ever raises
`ChangelogError`: in the error monad the extraction method always returns
`Except.ok`; it signals a missing section by `none` (exactly when the
extracted body of `update` is empty), and never returns an empty string. -/
theorem c9_never_raises (md gp today : List Char) (nv cv : Option (List Char)) :
    changelogE md gp nv cv today = Except.ok (changelog md gp nv cv today) ∧
    changelogE md gp nv cv today ≠ Except.error ChangelogError.mk ∧
    (changelog md gp nv cv today = none ↔ (update md gp nv cv today).2.2 = []) ∧
    changelog md gp nv cv today ≠ some [] := by
  refine ⟨rfl, by simp [changelogE], ?_, ?_⟩
  · unfold changelog
    by_cases h : ((update md gp nv cv today).2.2).isEmpty
    · simp [h, List.isEmpty_iff.mp h]
    · simp only [h, if_false]
      constructor
      · intro hc; exact absurd hc (by simp)
      · intro hc
        exact absurd (List.isEmpty_iff.mpr hc) (by simpa using h)
  · unfold changelog
    by_cases h : ((update md gp nv cv today).2.2).isEmpty
    · simp [h]
    · simp only [h, if_false]
      intro hc
      have : (update md gp nv cv today).2.2 = [] := by
        injection hc
      exact absurd (List.isEmpty_iff.mpr this) (by simpa using h)

/-- Claim C10 (confirmed): with `new_version = None` no token is rewritten,
so whenever the extracted body is non-empty the updated document equals
the original input character for character. -/
theorem c10_no_version_no_rewrite (md gp today : List Char)
    (cv : Option (List Char)) (t : Tok)
    (h : (update md gp none cv today).2.2 ≠ []) :
    (update md gp none cv today).2.1 = md ∧
    rewriteTok gp none today cv t = t.text := by
  refine ⟨?_, rewriteTok_none gp today cv t⟩
  have hne : (foldState gp none today cv (tokenize md)).changelog ≠ [] := by
    rw [← update_thd]; exact h
  rw [update_snd, if_neg (by simpa using hne)]
  rw [foldState_updated]
  have hmap : (tokenize md).map (rewriteTok gp none today cv)
      = (tokenize md).map Tok.text :=
    List.map_congr_left (fun u _ => rewriteTok_none gp today cv u)
  rw [hmap, tokenize_flatten]

/-- Witness for C10 at a concrete document with an Unreleased section. -/
theorem c10_no_version_no_rewrite_w :
    (update "## [Unreleased]\nA".data "v".data none none "D".data).2.2 ≠ [] ∧
    ((update "## [Unreleased]\nA".data "v".data none none "D".data).2.1
        = "## [Unreleased]\nA".data ∧
      rewriteTok "v".data none "D".data none ⟨TokenKind.newline, 0, ['\n']⟩
        = (⟨TokenKind.newline, 0, ['\n']⟩ : Tok).text) :=
  ⟨by decide,
   c10_no_version_no_rewrite "## [Unreleased]\nA".data "v".data "D".data none
     ⟨TokenKind.newline, 0, ['\n']⟩ (by decide)⟩

/-- Claim C6 counterexample: the recorded count is the total number of
hash characters of the matched text, not the leading run: the heading
line with a mid-line hash records 3 (leading run is 2), and the
non-heading line containing a hash records 1 instead of 0. -/
theorem c6_counterexample :
    tokenize "## a # b\nsee #1".data
      = [⟨TokenKind.heading, 3, "## a # b".data⟩,
         ⟨TokenKind.newline, 0, ['\n']⟩,
         ⟨TokenKind.any, 1, "see #1".data⟩] ∧
    leadingHashes "## a # b".data = 2 ∧ (3 : Nat) ≠ 2 ∧ (1 : Nat) ≠ 0 :=
  ⟨by decide, by decide, by decide, by decide⟩

/-- Claim C6 (amended): every token records as its count the number of
hash characters occurring anywhere in its matched text (so it can exceed
the leading run, and can be positive for non-heading tokens); tokens of
the heading-producing kinds always record a positive count, and newline
tokens record zero. -/
theorem c6_recorded_hash_count (md : List Char) (t : Tok)
    (ht : t ∈ tokenize md) :
    t.cnt = t.text.count '#' ∧
    (t.kind = TokenKind.added ∨ t.kind = TokenKind.changed ∨
     t.kind = TokenKind.deprecated ∨ t.kind = TokenKind.removed ∨
     t.kind = TokenKind.fixed ∨ t.kind = TokenKind.security ∨
     t.kind = TokenKind.unreleased ∨ t.kind = TokenKind.heading →
       0 < t.cnt) ∧
    (t.kind = TokenKind.newline → t.cnt = 0) :=
  tokenize_tokOK ht

/-- Witness for C6 at a concrete heading token. -/
theorem c6_recorded_hash_count_w :
    (⟨TokenKind.heading, 1, "# Hi".data⟩ : Tok) ∈ tokenize "# Hi".data ∧
    TokOK ⟨TokenKind.heading, 1, "# Hi".data⟩ :=
  ⟨by decide, c6_recorded_hash_count "# Hi".data _ (by decide)⟩

/-- Claim C8 counterexample: the scanner fragment `[Uu]nreleased` only
case-varies the first letter, so the hash-prefixed lines containing
"UNRELEASED" and "UnReleased" are tokenized as plain headings, not as
`unreleased`. -/
theorem c8_counterexample :
    tokenize "## UNRELEASED\n## UnReleased".data
      = [⟨TokenKind.heading, 2, "## UNRELEASED".data⟩,
         ⟨TokenKind.newline, 0, ['\n']⟩,
         ⟨TokenKind.heading, 2, "## UnReleased".data⟩] ∧
    TokenKind.heading ≠ TokenKind.unreleased :=
  ⟨by decide, by decide⟩

/-- Claim C8 (amended): a hash-prefixed line that the six keyword rules do
not match and whose text contains "unreleased" or "Unreleased" (only the
first letter may vary in case) is tokenized with kind `unreleased`,
covering the whole line. -/
theorem c8_unreleased_rule (l : List Char) (hnl : '\n' ∉ l)
    (hd : l.head? = some '#') (hkw : tryWords l = none)
    (hun : hasUnrelWord l = true) :
    tokenize l = [⟨TokenKind.unreleased, l.count '#', l⟩] := by
  obtain ⟨c, cs, rfl⟩ : ∃ c cs, l = c :: cs := by
    cases l with
    | nil => simp at hd
    | cons c cs => exact ⟨c, cs, rfl⟩
  have hc : c = '#' := by simpa using hd
  subst hc
  have hall : ∀ x ∈ '#' :: cs, (x != '\n') = true := by
    intro x hx
    have : x ≠ '\n' := fun hxe => hnl (hxe ▸ hx)
    simpa using this
  have hline : lineOf ('#' :: cs) = '#' :: cs := takeWhile_all hall
  have hrest : lineRest ('#' :: cs) = [] := dropWhile_all hall
  have hu : tryUnreleased ('#' :: cs)
      = some (mkTok TokenKind.unreleased ('#' :: cs), []) := by
    simp only [tryUnreleased, hline, hrest, hun, if_true]
  have hstep : scanStep ('#' :: cs)
      = some (mkTok TokenKind.unreleased ('#' :: cs), []) := by
    unfold scanStep
    rw [hkw, hu]
  unfold tokenize scan
  simp only [List.length_cons]
  rw [scanAux]
  rw [hstep]
  simp [scanAux_nil, mkTok]

/-- Witness for C8 at a concrete unreleased heading line. -/
theorem c8_unreleased_rule_w :
    '\n' ∉ "## [Unreleased]".data ∧
    ("## [Unreleased]".data.head? = some '#') ∧
    tryWords "## [Unreleased]".data = none ∧
    hasUnrelWord "## [Unreleased]".data = true ∧
    tokenize "## [Unreleased]".data
      = [⟨TokenKind.unreleased, "## [Unreleased]".data.count '#',
          "## [Unreleased]".data⟩] :=
  ⟨by decide, by decide, by decide, by decide,
   c8_unreleased_rule "## [Unreleased]".data (by decide) (by decide)
     (by decide) (by decide)⟩

/-- Claim C5 counterexample: on a document with no Unreleased heading the
extraction method does not fail with the changelog error: it returns
`Except.ok none`. -/
theorem c5_counterexample :
    changelogE "# Changelog\nnothing here".data "v".data none none
        "2026-10-12".data = Except.ok none ∧
    changelogE "# Changelog\nnothing here".data "v".data none none
        "2026-10-12".data ≠ Except.error ChangelogError.mk := by
  have h : changelog "# Changelog\nnothing here".data "v".data none none
      "2026-10-12".data = none := by decide
  constructor
  · unfold changelogE
    rw [h]
  · unfold changelogE
    rw [h]
    exact fun hE => Except.noConfusion hE

/-- Claim C5 (amended): extraction on a document containing no heading
tokenized as `unreleased` does not raise: it returns `none` (the
`ChangelogError` class is declared but never raised by the engine). -/
theorem c5_no_section_returns_none (md gp today : List Char)
    (nv cv : Option (List Char))
    (h : ∀ t ∈ tokenize md, t.kind ≠ TokenKind.unreleased) :
    changelogE md gp nv cv today = Except.ok none ∧
    changelog md gp nv cv today = none := by
  have h0 := foldl_hc_zero gp nv today cv (tokenize md) initState rfl
    (fun t ht hk => absurd hk (h t ht))
  have hcl : (foldState gp nv today cv (tokenize md)).changelog = [] := by
    unfold foldState
    rw [h0.2]
    rfl
  have hnone : changelog md gp nv cv today = none := by
    unfold changelog
    dsimp only
    rw [update_thd, hcl]
    rfl
  exact ⟨by unfold changelogE; rw [hnone], hnone⟩

/-- Witness for C5 at a concrete document with no unreleased heading. -/
theorem c5_no_section_returns_none_w :
    (∀ t ∈ tokenize "# x\ny".data, t.kind ≠ TokenKind.unreleased) ∧
    (changelogE "# x\ny".data "v".data none none "D".data = Except.ok none ∧
     changelog "# x\ny".data "v".data none none "D".data = none) :=
  ⟨by decide,
   c5_no_section_returns_none "# x\ny".data "v".data "D".data none none
     (by decide)⟩

/-- Claim C7 counterexample: with two Unreleased-like headings of which
only the first contains the target substring "v1", extraction with that
substring returns the whole document as body — including the second,
non-matching section — because an `unreleased`-kind token never
terminates the active section. -/
theorem c7_counterexample :
    (update "## [Unreleased v1]\nA\n## [Unreleased v2]\nB".data "v".data none
        (some "v1".data) "D".data).2.2
      = "## [Unreleased v1]\nA\n## [Unreleased v2]\nB".data ∧
    infixOf "## [Unreleased v2]".data
      ((update "## [Unreleased v1]\nA\n## [Unreleased v2]\nB".data "v".data
        none (some "v1".data) "D".data).2.2) = true :=
  ⟨by decide, by decide⟩

/-- Claim C7 (amended): an `unreleased` token starts the section exactly
when the (non-empty) `containing_version` is a substring of its raw text,
and with no `containing_version` it always starts it; if no `unreleased`
token contains the substring the call fails exactly like the no-section
case: `update` returns the sentinel `(md, "", "")` and extraction returns
`none`. -/
theorem c7_containing_version (md gp today : List Char)
    (nv : Option (List Char)) (c : List Char) (t : Tok) (hc : c ≠ [])
    (h : ∀ u ∈ tokenize md, u.kind = TokenKind.unreleased →
      infixOf c u.text = false) :
    update md gp nv (some c) today = (md, [], []) ∧
    changelog md gp nv (some c) today = none ∧
    startCond (some c) t = infixOf c t.text ∧
    startCond none t = true := by
  have hcfalse : ∀ u ∈ tokenize md, u.kind = TokenKind.unreleased →
      startCond (some c) u = false := by
    intro u hu hk
    simp only [startCond]
    rw [if_neg (by simpa using hc)]
    exact h u hu hk
  have h0 := foldl_hc_zero gp nv today (some c) (tokenize md) initState rfl
    hcfalse
  have hcl : (foldState gp nv today (some c) (tokenize md)).changelog = [] := by
    unfold foldState
    rw [h0.2]
    rfl
  have hupd : update md gp nv (some c) today = (md, [], []) := by
    unfold update
    dsimp only
    rw [hcl]
    rfl
  refine ⟨hupd, ?_, ?_, rfl⟩
  · unfold changelog
    dsimp only
    rw [hupd]
    rfl
  · simp only [startCond]
    rw [if_neg (by simpa using hc)]

/-- Witness for C7 at a concrete document whose only unreleased heading
does not contain the requested substring. -/
theorem c7_containing_version_w :
    ("v9".data ≠ ([] : List Char)) ∧
    (∀ u ∈ tokenize "## [Unreleased vX]\nA".data,
      u.kind = TokenKind.unreleased → infixOf "v9".data u.text = false) ∧
    (update "## [Unreleased vX]\nA".data "v".data none (some "v9".data)
        "D".data = ("## [Unreleased vX]\nA".data, [], []) ∧
     changelog "## [Unreleased vX]\nA".data "v".data none (some "v9".data)
        "D".data = none ∧
     startCond (some "v9".data) ⟨TokenKind.any, 0, "A".data⟩
        = infixOf "v9".data (Tok.text ⟨TokenKind.any, 0, "A".data⟩) ∧
     startCond none ⟨TokenKind.any, 0, "A".data⟩ = true) :=
  ⟨by decide, by decide,
   c7_containing_version "## [Unreleased vX]\nA".data "v".data "D".data none
     "v9".data ⟨TokenKind.any, 0, "A".data⟩ (by decide) (by decide)⟩

/-- Claim C3 (confirmed): with a non-empty `new_version`, the updated
document is the concatenation of the per-token rewrites, where a matched
`unreleased` token gets the case-insensitive "unreleased" substitution
plus the date suffix, an `unreleased_link` token gets the same
substitution followed by the "master" replacement with the tag prefix and
version, and every other token (including an unmatched `unreleased`
token) is passed through unchanged. -/
theorem c3_rewrite_rules (md gp today : List Char) (v : List Char)
    (cv : Option (List Char)) (t : Tok) (hv : v ≠ [])
    (_ht : t ∈ tokenize md) :
    (foldState gp (some v) today cv (tokenize md)).updated
      = ((tokenize md).map (rewriteTok gp (some v) today cv)).flatten ∧
    (t.kind = TokenKind.unreleased → startCond cv t = true →
      rewriteTok gp (some v) today cv t
        = reSub true unrelLower v t.text ++ dateSuffix today) ∧
    (t.kind = TokenKind.unreleasedLink →
      rewriteTok gp (some v) today cv t
        = reSub false masterPat (gp ++ v) (reSub true unrelLower v t.text)) ∧
    (t.kind = TokenKind.unreleased → startCond cv t = false →
      rewriteTok gp (some v) today cv t = t.text) ∧
    (t.kind ≠ TokenKind.unreleased → t.kind ≠ TokenKind.unreleasedLink →
      rewriteTok gp (some v) today cv t = t.text) := by
  have htr : truthy (some v) = true := by
    simp [truthy, hv]
  refine ⟨foldState_updated gp (some v) today cv (tokenize md), ?_, ?_, ?_, ?_⟩
  · intro hk hs
    unfold rewriteTok
    simp [hk, hs, htr]
  · intro hk
    unfold rewriteTok
    simp [hk, htr]
  · intro hk hs
    unfold rewriteTok
    simp [hk, hs]
  · intro hk hl
    unfold rewriteTok
    simp [hk, hl]

/-- Witness for C3 at the unreleased heading token of a concrete
document. -/
theorem c3_rewrite_rules_w :
    ("1.2.3".data ≠ ([] : List Char)) ∧
    (⟨TokenKind.unreleased, 2, "## [Unreleased]".data⟩ : Tok)
        ∈ tokenize "## [Unreleased]\nA".data ∧
    ((foldState "v".data (some "1.2.3".data) "2026-10-12".data none
        (tokenize "## [Unreleased]\nA".data)).updated
      = ((tokenize "## [Unreleased]\nA".data).map
          (rewriteTok "v".data (some "1.2.3".data) "2026-10-12".data
            none)).flatten ∧
     ((⟨TokenKind.unreleased, 2, "## [Unreleased]".data⟩ : Tok).kind
          = TokenKind.unreleased →
      startCond none ⟨TokenKind.unreleased, 2, "## [Unreleased]".data⟩
          = true →
      rewriteTok "v".data (some "1.2.3".data) "2026-10-12".data none
          ⟨TokenKind.unreleased, 2, "## [Unreleased]".data⟩
        = reSub true unrelLower "1.2.3".data
            (Tok.text ⟨TokenKind.unreleased, 2, "## [Unreleased]".data⟩)
          ++ dateSuffix "2026-10-12".data) ∧
     ((⟨TokenKind.unreleased, 2, "## [Unreleased]".data⟩ : Tok).kind
          = TokenKind.unreleasedLink →
      rewriteTok "v".data (some "1.2.3".data) "2026-10-12".data none
          ⟨TokenKind.unreleased, 2, "## [Unreleased]".data⟩
        = reSub false masterPat ("v".data ++ "1.2.3".data)
            (reSub true unrelLower "1.2.3".data
              (Tok.text ⟨TokenKind.unreleased, 2, "## [Unreleased]".data⟩))) ∧
     ((⟨TokenKind.unreleased, 2, "## [Unreleased]".data⟩ : Tok).kind
          = TokenKind.unreleased →
      startCond none ⟨TokenKind.unreleased, 2, "## [Unreleased]".data⟩
          = false →
      rewriteTok "v".data (some "1.2.3".data) "2026-10-12".data none
          ⟨TokenKind.unreleased, 2, "## [Unreleased]".data⟩
        = Tok.text ⟨TokenKind.unreleased, 2, "## [Unreleased]".data⟩) ∧
     ((⟨TokenKind.unreleased, 2, "## [Unreleased]".data⟩ : Tok).kind
          ≠ TokenKind.unreleased →
      (⟨TokenKind.unreleased, 2, "## [Unreleased]".data⟩ : Tok).kind
          ≠ TokenKind.unreleasedLink →
      rewriteTok "v".data (some "1.2.3".data) "2026-10-12".data none
          ⟨TokenKind.unreleased, 2, "## [Unreleased]".data⟩
        = Tok.text ⟨TokenKind.unreleased, 2, "## [Unreleased]".data⟩)) :=
  ⟨by decide, by decide,
   c3_rewrite_rules "## [Unreleased]\nA".data "v".data "2026-10-12".data
     "1.2.3".data none ⟨TokenKind.unreleased, 2, "## [Unreleased]".data⟩
     (by decide) (by decide)⟩

/-- Claim C1 counterexample: a second `unreleased`-kind heading of equal
depth does not end the active section: the extracted body is the whole
document, including that heading and everything after it. -/
theorem c1_counterexample :
    (update "## [Unreleased]\nA\n## [Unreleased] 2\nB".data "v".data none
        none "D".data).2.2
      = "## [Unreleased]\nA\n## [Unreleased] 2\nB".data ∧
    infixOf "## [Unreleased] 2".data
      ((update "## [Unreleased]\nA\n## [Unreleased] 2\nB".data "v".data none
        none "D".data).2.2) = true :=
  ⟨by decide, by decide⟩

/-- Claim C1 (amended): while collection is still active, the first token
whose kind is not `unreleased` and whose recorded hash count is positive
and at most the active `hc` ends the section: its own (rewritten) text
and every later token are excluded from the extracted body, while all of
them still appear in the updated-document accumulator. -/
theorem c1_section_termination (md gp today : List Char)
    (nv cv : Option (List Char)) (pre post : List Tok) (t : Tok)
    (hsplit : tokenize md = pre ++ t :: post)
    (_hmay : (pre.foldl (updStep gp nv today cv) initState).mayRel = true)
    (hkind : t.kind ≠ TokenKind.unreleased)
    (hpos : 0 < t.cnt)
    (hle : t.cnt ≤ (pre.foldl (updStep gp nv today cv) initState).hc) :
    (update md gp nv cv today).2.2
        = (pre.foldl (updStep gp nv today cv) initState).changelog ∧
    (foldState gp nv today cv (tokenize md)).updated
        = (pre.foldl (updStep gp nv today cv) initState).updated
          ++ (rewriteTok gp nv today cv t
              ++ (post.map (rewriteTok gp nv today cv)).flatten) := by
  have hhc : 0 < (pre.foldl (updStep gp nv today cv) initState).hc :=
    lt_of_lt_of_le hpos hle
  have hterm := @updStep_terminator gp nv today cv
    (pre.foldl (updStep gp nv today cv) initState) t hkind hpos hhc hle
  have hfold : foldState gp nv today cv (tokenize md)
      = post.foldl (updStep gp nv today cv)
          (updStep gp nv today cv
            (pre.foldl (updStep gp nv today cv) initState) t) := by
    unfold foldState
    rw [hsplit, List.foldl_append, List.foldl_cons]
  obtain ⟨hmf, hcl⟩ := foldl_mayRel_false gp nv today cv post
    (updStep gp nv today cv (pre.foldl (updStep gp nv today cv) initState) t)
    (by rw [hterm])
  constructor
  · rw [update_thd, hfold, hcl, hterm]
  · rw [hfold, foldl_updated, hterm, List.append_assoc]

/-- Witness for C1: a concrete document whose Unreleased section is ended
by the sibling heading of the 1.0.0 release. -/
theorem c1_section_termination_w :
    (tokenize "## [Unreleased]\nA\n## 1.0.0\nB".data
      = [⟨TokenKind.unreleased, 2, "## [Unreleased]".data⟩,
         ⟨TokenKind.newline, 0, ['\n']⟩,
         ⟨TokenKind.any, 0, ['A']⟩,
         ⟨TokenKind.newline, 0, ['\n']⟩]
        ++ ⟨TokenKind.heading, 2, "## 1.0.0".data⟩
          :: [⟨TokenKind.newline, 0, ['\n']⟩, ⟨TokenKind.any, 0, ['B']⟩]) ∧
    (([⟨TokenKind.unreleased, 2, "## [Unreleased]".data⟩,
       ⟨TokenKind.newline, 0, ['\n']⟩,
       ⟨TokenKind.any, 0, ['A']⟩,
       ⟨TokenKind.newline, 0, ['\n']⟩] :
        List Tok).foldl (updStep "v".data none "D".data none)
          initState).mayRel = true ∧
    ((⟨TokenKind.heading, 2, "## 1.0.0".data⟩ : Tok).kind
      ≠ TokenKind.unreleased) ∧
    0 < (⟨TokenKind.heading, 2, "## 1.0.0".data⟩ : Tok).cnt ∧
    (⟨TokenKind.heading, 2, "## 1.0.0".data⟩ : Tok).cnt
      ≤ (([⟨TokenKind.unreleased, 2, "## [Unreleased]".data⟩,
           ⟨TokenKind.newline, 0, ['\n']⟩,
           ⟨TokenKind.any, 0, ['A']⟩,
           ⟨TokenKind.newline, 0, ['\n']⟩] :
            List Tok).foldl (updStep "v".data none "D".data none)
              initState).hc ∧
    ((update "## [Unreleased]\nA\n## 1.0.0\nB".data "v".data none none
        "D".data).2.2
      = (([⟨TokenKind.unreleased, 2, "## [Unreleased]".data⟩,
           ⟨TokenKind.newline, 0, ['\n']⟩,
           ⟨TokenKind.any, 0, ['A']⟩,
           ⟨TokenKind.newline, 0, ['\n']⟩] :
            List Tok).foldl (updStep "v".data none "D".data none)
              initState).changelog ∧
     (foldState "v".data none "D".data none
        (tokenize "## [Unreleased]\nA\n## 1.0.0\nB".data)).updated
      = (([⟨TokenKind.unreleased, 2, "## [Unreleased]".data⟩,
           ⟨TokenKind.newline, 0, ['\n']⟩,
           ⟨TokenKind.any, 0, ['A']⟩,
           ⟨TokenKind.newline, 0, ['\n']⟩] :
            List Tok).foldl (updStep "v".data none "D".data none)
              initState).updated
        ++ (rewriteTok "v".data none "D".data none
              ⟨TokenKind.heading, 2, "## 1.0.0".data⟩
            ++ (([⟨TokenKind.newline, 0, ['\n']⟩,
                  ⟨TokenKind.any, 0, ['B']⟩] : List Tok).map
                (rewriteTok "v".data none "D".data none)).flatten)) :=
  ⟨by decide, by decide, by decide, by decide, by decide,
   c1_section_termination "## [Unreleased]\nA\n## 1.0.0\nB".data "v".data
     "D".data none none
     [⟨TokenKind.unreleased, 2, "## [Unreleased]".data⟩,
      ⟨TokenKind.newline, 0, ['\n']⟩,
      ⟨TokenKind.any, 0, ['A']⟩,
      ⟨TokenKind.newline, 0, ['\n']⟩]
     [⟨TokenKind.newline, 0, ['\n']⟩, ⟨TokenKind.any, 0, ['B']⟩]
     ⟨TokenKind.heading, 2, "## 1.0.0".data⟩
     (by decide) (by decide) (by decide) (by decide) (by decide)⟩

end Changelog
